import Mathlib

/-!
Verification of the ledger-sync read store, delta pipeline, and
batching/submission components of a supply-chain provenance application.

The JavaScript sources are shallowly embedded: RethinkDB tables become lists
of rows, the promise pipeline of a block job becomes an explicit event trace,
and protobuf messages become structures over their decoded fields.  Each
definition mirrors one function of the source tree; external primitives
(SHA-512, secp256k1 signing, random nonces) are abstracted as function
parameters.
-/

namespace SupplyChain

/-- JavaScript `Number.MAX_SAFE_INTEGER` (2^53 - 1), the sentinel block number
marking a read-store row as currently live. -/
def MAX_SAFE_INTEGER : Nat := 9007199254740991

/-- A read-store row: the projected document plus the half-open block interval
`[startBlockNum, endBlockNum)` attached by `addBlockState`
(`src/ledger_sync/db/state.js`). -/
structure Row (δ : Type) where
  doc : δ
  startBlockNum : Nat
  endBlockNum : Nat
deriving DecidableEq, Repr

/-- Embedding of `addBlockState` (`src/ledger_sync/db/state.js`, lines 42-73).
A table is a list of rows; `ix` is the secondary index of the table, so that
`getAll(indexValue, { index: indexName })` selects the rows whose indexed
attribute equals `indexValue`.  The steps follow the ReQL expression: collect
the live rows for the index value, check them for a duplicate `startBlockNum`,
and otherwise update `endBlockNum` on every row `getAll` returns (the source
re-queries `getAll` without the liveness filter here) before inserting the new
row with a fresh interval. -/
def addBlockState {δ κ : Type} [DecidableEq κ] (ix : δ → κ)
    (table : List (Row δ)) (indexValue : κ) (doc : δ) (blockNum : Nat) :
    List (Row δ) :=
  let oldDocs := table.filter fun row =>
    decide (ix row.doc = indexValue ∧ row.endBlockNum = MAX_SAFE_INTEGER)
  let duplicates := oldDocs.filter fun row => decide (row.startBlockNum = blockNum)
  if 0 < duplicates.length then
    table
  else
    (table.map fun row =>
      if ix row.doc = indexValue then { row with endBlockNum := blockNum } else row)
      ++ [{ doc := doc, startBlockNum := blockNum, endBlockNum := MAX_SAFE_INTEGER }]

/-- Unfolding of `addBlockState` in the duplicate branch. -/
theorem addBlockState_dup {δ κ : Type} [DecidableEq κ] (ix : δ → κ)
    (table : List (Row δ)) (indexValue : κ) (doc : δ) (blockNum : Nat)
    (h : 0 < ((table.filter fun row =>
        decide (ix row.doc = indexValue ∧ row.endBlockNum = MAX_SAFE_INTEGER)).filter
          fun row => decide (row.startBlockNum = blockNum)).length) :
    addBlockState ix table indexValue doc blockNum = table := by
  simp only [addBlockState]
  rw [if_pos h]

/-- Unfolding of `addBlockState` in the close-and-insert branch. -/
theorem addBlockState_fresh {δ κ : Type} [DecidableEq κ] (ix : δ → κ)
    (table : List (Row δ)) (indexValue : κ) (doc : δ) (blockNum : Nat)
    (h : ¬ 0 < ((table.filter fun row =>
        decide (ix row.doc = indexValue ∧ row.endBlockNum = MAX_SAFE_INTEGER)).filter
          fun row => decide (row.startBlockNum = blockNum)).length) :
    addBlockState ix table indexValue doc blockNum =
      (table.map fun row =>
        if ix row.doc = indexValue then { row with endBlockNum := blockNum } else row)
        ++ [{ doc := doc, startBlockNum := blockNum, endBlockNum := MAX_SAFE_INTEGER }] := by
  simp only [addBlockState]
  rw [if_neg h]

/-- C3.  Block-upsert is idempotent: replaying `addBlockState` with the same
index value, document and block number leaves the table unchanged, because the
second application finds a live row (the one the first application inserted,
or a pre-existing duplicate) whose `startBlockNum` equals `blockNum` and takes
the no-change branch.  The hypothesis `hix` records that the index value is
the one derived from the document, as at every call site of `addBlockState`. -/
theorem addBlockState_idempotent {δ κ : Type} [DecidableEq κ] (ix : δ → κ)
    (table : List (Row δ)) (indexValue : κ) (doc : δ) (blockNum : Nat)
    (hix : ix doc = indexValue) :
    addBlockState ix (addBlockState ix table indexValue doc blockNum)
        indexValue doc blockNum
      = addBlockState ix table indexValue doc blockNum := by
  by_cases h : 0 < ((table.filter fun row =>
      decide (ix row.doc = indexValue ∧ row.endBlockNum = MAX_SAFE_INTEGER)).filter
        fun row => decide (row.startBlockNum = blockNum)).length
  · rw [addBlockState_dup ix table indexValue doc blockNum h,
      addBlockState_dup ix table indexValue doc blockNum h]
  · rw [addBlockState_fresh ix table indexValue doc blockNum h]
    apply addBlockState_dup
    have hmem : Row.mk doc blockNum MAX_SAFE_INTEGER ∈
        ((((table.map fun row =>
            if ix row.doc = indexValue then { row with endBlockNum := blockNum }
            else row)
          ++ [Row.mk doc blockNum MAX_SAFE_INTEGER]).filter fun row =>
            decide (ix row.doc = indexValue ∧
              row.endBlockNum = MAX_SAFE_INTEGER)).filter fun row =>
          decide (row.startBlockNum = blockNum)) := by
      refine List.mem_filter.mpr ⟨List.mem_filter.mpr ⟨?_, ?_⟩, ?_⟩
      · exact List.mem_append_right _ (List.mem_singleton_self _)
      · simpa using hix
      · simp
    exact List.length_pos.mpr (List.ne_nil_of_mem hmem)

/-- Witness for `addBlockState_idempotent` at a concrete table, document and
block number. -/
theorem addBlockState_idempotent_witness :
    (fun (d : Nat) => d / 100) 103 = 1 ∧
    addBlockState (fun (d : Nat) => d / 100)
        (addBlockState (fun d => d / 100)
          [⟨102, 2, MAX_SAFE_INTEGER⟩] 1 103 3) 1 103 3
      = addBlockState (fun d => d / 100) [⟨102, 2, MAX_SAFE_INTEGER⟩] 1 103 3 :=
  ⟨by decide,
    addBlockState_idempotent (fun d => d / 100)
      [⟨102, 2, MAX_SAFE_INTEGER⟩] 1 103 3 (by decide)⟩

/-- C1.  The block-upsert as implemented rewrites `endBlockNum` on every row
`getAll` returns for the index value, not only on the currently-live ones: at
the concrete input below the first row is already closed (its interval is
`[1, 2)`), yet the call at `blockNum = 3` rewrites its `endBlockNum` to `3`,
producing the overlapping intervals `[1, 3)` and `[2, 3)`. -/
theorem addBlockState_rewrites_closed_row :
    addBlockState (fun d => d / 100)
        [⟨101, 1, 2⟩, ⟨102, 2, MAX_SAFE_INTEGER⟩] 1 103 3
      = [⟨101, 1, 3⟩, ⟨102, 2, 3⟩, ⟨103, 3, MAX_SAFE_INTEGER⟩] := by
  decide

/-- Data types of property values: the protobuf enum `PropertySchema.DataType`,
decoded to its string name by `toObject` with the `enums: String` option. -/
inductive DataType where
  | BYTES
  | BOOLEAN
  | NUMBER
  | STRING
  | ENUM
  | LOCATION
  | STRUCT
deriving DecidableEq, Repr

/-- A decoded JavaScript value as it appears in projected documents.  `undef`
models JavaScript `undefined`; `obj` models an object as its ordered field
list. -/
inductive JsVal where
  | str (s : String)
  | bool (b : Bool)
  | int (i : Int)
  | nat (n : Nat)
  | loc (latitude longitude : Int)
  | obj (fields : List (String × JsVal))
  | undefinedVal

/-- A typed sub-value of a STRUCT property: the decoded `PropertyValue`
message, carrying one leaf field per data type plus the nested `structValues`
list. -/
inductive PropVal where
  | mk (name : String) (dataType : DataType) (bytesValue : String)
      (booleanValue : Bool) (numberValue : Int) (stringValue : String)
      (enumValue : Nat) (locationLatitude locationLongitude : Int)
      (structValues : List PropVal)

def PropVal.name : PropVal → String
  | .mk n _ _ _ _ _ _ _ _ _ => n

def PropVal.dataType : PropVal → DataType
  | .mk _ dt _ _ _ _ _ _ _ _ => dt

def PropVal.structValues : PropVal → List PropVal
  | .mk _ _ _ _ _ _ _ _ _ svs => svs

/-- The `valueNames` table (`src/ledger_sync/db/state.js`, lines 24-31): the
leaf field holding a value of each data type.  `STRUCT` has no entry, so the
lookup yields JavaScript `undefined` (modelled as `none`). -/
def valueNames : DataType → Option String
  | .BYTES => some "bytesValue"
  | .BOOLEAN => some "booleanValue"
  | .NUMBER => some "numberValue"
  | .STRING => some "stringValue"
  | .ENUM => some "enumValue"
  | .LOCATION => some "locationValue"
  | .STRUCT => none

/-- Dynamic field access `property[fieldName]` on a decoded `PropertyValue`;
an unknown or `undefined` subscript yields `undefined`. -/
def PropVal.getField : PropVal → Option String → JsVal
  | .mk _ _ by_ _ _ _ _ _ _ _, some "bytesValue" => .str by_
  | .mk _ _ _ bo _ _ _ _ _ _, some "booleanValue" => .bool bo
  | .mk _ _ _ _ nu _ _ _ _ _, some "numberValue" => .int nu
  | .mk _ _ _ _ _ st _ _ _ _, some "stringValue" => .str st
  | .mk _ _ _ _ _ _ en _ _ _, some "enumValue" => .nat en
  | .mk _ _ _ _ _ _ _ la lo _, some "locationValue" => .loc la lo
  | _, _ => .undefinedVal

/-- JavaScript object-key assignment: overwrite the value in place if the key
exists (keeping its position), otherwise append the pair. -/
def setKey : List (String × JsVal) → String → JsVal → List (String × JsVal)
  | [], k, v => [(k, v)]
  | (k', v') :: rest, k, v =>
      if k' = k then (k', v) :: rest else (k', v') :: setKey rest k v

/-- Lodash `_.fromPairs`: build a JavaScript object by assigning each pair in
order. -/
def fromPairs (pairs : List (String × JsVal)) : List (String × JsVal) :=
  pairs.foldl (fun acc kv => setKey acc kv.1 kv.2) []

mutual

/-- The `properties.map(...)` body of `xformStruct`: one `[name, value]` pair
per sub-property. -/
def xformPairs : List PropVal → List (String × JsVal)
  | [] => []
  | p :: ps => (p.name, xformValue p) :: xformPairs ps

/-- The value of one sub-property in `xformStruct`: recurse into
`structValues` for STRUCT, else read the leaf field named by `valueNames`. -/
def xformValue (p : PropVal) : JsVal :=
  match p with
  | .mk _ dt _ _ _ _ _ _ _ svs =>
      if dt = .STRUCT then .obj (fromPairs (xformPairs svs))
      else p.getField (valueNames dt)

end

/-- Embedding of `xformStruct` (`src/ledger_sync/db/state.js`, lines 33-40). -/
def xformStruct (properties : List PropVal) : List (String × JsVal) :=
  fromPairs (xformPairs properties)

/-- The pair list folded by `xformStruct` is exactly the per-sub-property map
sending each name to its transformed value. -/
theorem xformPairs_eq_map (ps : List PropVal) :
    xformPairs ps = ps.map fun p => (p.name, xformValue p) := by
  induction ps with
  | nil => rfl
  | cons p ps ih => simp [xformPairs, ih]

/-- The dynamic `enumValue` field of a reported value: an integer index as
decoded from the wire, a string after ENUM enrichment, or `undefined` when
the option lookup misses. -/
inductive EnumField where
  | num (n : Nat)
  | str (s : String)
  | undefinedVal

/-- One entry of a page's `reportedValues`: the fields the projection touches
(`enumValue`, `structValues`, `structValue`), the report identity, and `rest`
for the leaf value fields it carries through untouched.  `structValues` and
`structValue` are `Option`s because enrichment deletes the former and creates
the latter. -/
structure Report where
  reporterIndex : Nat
  timestamp : Nat
  enumValue : EnumField
  structValues : Option (List PropVal)
  structValue : Option (List (String × JsVal))
  rest : List (String × JsVal)

/-- A projected Property document: the fields `addPropertyPage` reads, plus
`rest` for those it only stores. -/
structure PropertyDoc where
  name : String
  recordId : String
  dataType : DataType
  enumOptions : List String
  rest : List (String × JsVal)

/-- A projected PropertyPage document. -/
structure PageDoc where
  name : String
  recordId : String
  pageNum : Nat
  reportedValues : List Report
  rest : List (String × JsVal)

/-- The `attributes` secondary index of the `properties` table:
`['name', 'recordId'].map(k => property[k])`. -/
def propertyIx (d : PropertyDoc) : String × String := (d.name, d.recordId)

/-- The `attributes` secondary index of the `propertyPages` table:
`['name', 'recordId', 'pageNum'].map(k => page[k])`. -/
def pageIx (d : PageDoc) : String × String × Nat := (d.name, d.recordId, d.pageNum)

/-- JavaScript `property.enumOptions[reported.enumValue]`: index into the
options array; an out-of-range or non-numeric subscript yields `undefined`. -/
def enumLookup (options : List String) : EnumField → EnumField
  | .num n =>
      match options.get? n with
      | some s => .str s
      | none => .undefinedVal
  | _ => .undefinedVal

/-- The two per-report rewrites of `addPropertyPage`
(`src/ledger_sync/db/state.js`, lines 110-132): an ENUM index becomes the
option string (and any other data type zeroes `enumValue` to the empty
string), then `structValues` is folded by `xformStruct` into `structValue`
for STRUCT (an empty object for any other data type) and deleted.  Decoded
pages always carry a `structValues` array, so the `getD []` default is never
exercised by the pipeline. -/
def enrichReport (property : PropertyDoc) (reported : Report) : Report :=
  let r1 :=
    if property.dataType = .ENUM then
      { reported with enumValue := enumLookup property.enumOptions reported.enumValue }
    else
      { reported with enumValue := .str "" }
  if property.dataType = .STRUCT then
    { r1 with structValue := some (xformStruct (r1.structValues.getD []))
              structValues := none }
  else
    { r1 with structValue := some []
              structValues := none }

/-- The `queryTable('properties', ...)` lookup of `addPropertyPage`: the live
rows of the `properties` table whose `attributes` index equals
`[page.name, page.recordId]`. -/
def livePropertiesFor (properties : List (Row PropertyDoc)) (page : PageDoc) :
    List (Row PropertyDoc) :=
  properties.filter fun row =>
    decide (propertyIx row.doc = (page.name, page.recordId) ∧
      row.endBlockNum = MAX_SAFE_INTEGER)

/-- Embedding of `addPropertyPage` (`src/ledger_sync/db/state.js`, lines
96-140).  When no live Property row matches, the `console.warn` return skips
only the enrichment step of the promise chain: the final `.then` still runs,
so `addBlockState` upserts the raw page regardless.  Otherwise the first
matching row's document drives the enrichment of every report. -/
def addPropertyPage (properties : List (Row PropertyDoc))
    (propertyPages : List (Row PageDoc)) (page : PageDoc) (blockNum : Nat) :
    List (Row PageDoc) :=
  let enriched :=
    match livePropertiesFor properties page with
    | [] => page
    | property :: _ =>
        { page with reportedValues := page.reportedValues.map (enrichReport property.doc) }
  addBlockState pageIx propertyPages (page.name, page.recordId, page.pageNum)
    enriched blockNum

/-- A sample report with no matching Property row in scope. -/
def sampleReport : Report :=
  { reporterIndex := 0, timestamp := 5, enumValue := .num 0
    structValues := some [], structValue := none, rest := [] }

/-- A sample page used to exercise the missing-Property path. -/
def samplePage : PageDoc :=
  { name := "temp", recordId := "rec-1", pageNum := 1
    reportedValues := [sampleReport], rest := [] }

/-- C4 (counterexample).  With an empty `properties` table no live Property
row matches `samplePage`, yet `addPropertyPage` still writes a row to the
`propertyPages` table: the warning return skips only the enrichment step, not
the final `addBlockState`. -/
theorem addPropertyPage_writes_despite_missing_property :
    livePropertiesFor [] samplePage = []
    ∧ addPropertyPage [] [] samplePage 1 = [Row.mk samplePage 1 MAX_SAFE_INTEGER]
    ∧ addPropertyPage [] [] samplePage 1 ≠ ([] : List (Row PageDoc)) :=
  ⟨rfl, rfl, fun h => List.cons_ne_nil _ _ h⟩

/-- C4 (amended).  When no currently-live Property row matches the page's
`(name, recordId)`, the failure is logged and is not fatal, and the page is
still upserted into the `propertyPages` table unenriched: the projection
equals a plain `addBlockState` of the raw page. -/
theorem addPropertyPage_missing_property_upserts_raw
    (properties : List (Row PropertyDoc)) (propertyPages : List (Row PageDoc))
    (page : PageDoc) (blockNum : Nat)
    (h : livePropertiesFor properties page = []) :
    addPropertyPage properties propertyPages page blockNum
      = addBlockState pageIx propertyPages (page.name, page.recordId, page.pageNum)
          page blockNum := by
  unfold addPropertyPage
  rw [h]

/-- Witness for `addPropertyPage_missing_property_upserts_raw` at a concrete
page and empty tables. -/
theorem addPropertyPage_missing_property_upserts_raw_witness :
    addPropertyPage [] [] samplePage 2
      = addBlockState pageIx [] ("temp", "rec-1", 1) samplePage 2 :=
  addPropertyPage_missing_property_upserts_raw [] [] samplePage 2 rfl

/-- C5.  With a matching live Property row, the projection upserts the page
with every report rewritten by `enrichReport` of the first matching row, and
that rewrite does exactly what the spec describes: an ENUM index becomes the
option string at that index, a non-ENUM property zeroes `enumValue` to the
empty string, a STRUCT property folds `structValues` into the object mapping
each sub-property name to its (recursively transformed) value and removes
`structValues`, and any other property gets the empty object. -/
theorem addPropertyPage_enrichment
    (properties : List (Row PropertyDoc)) (propertyPages : List (Row PageDoc))
    (page : PageDoc) (blockNum : Nat)
    (property : Row PropertyDoc) (others : List (Row PropertyDoc))
    (hlive : livePropertiesFor properties page = property :: others) :
    addPropertyPage properties propertyPages page blockNum
      = addBlockState pageIx propertyPages (page.name, page.recordId, page.pageNum)
          { page with reportedValues := page.reportedValues.map (enrichReport property.doc) }
          blockNum
    ∧ (∀ reported n s, property.doc.dataType = .ENUM →
        reported.enumValue = .num n →
        property.doc.enumOptions[n]? = some s →
        (enrichReport property.doc reported).enumValue = .str s)
    ∧ (∀ reported, property.doc.dataType ≠ .ENUM →
        (enrichReport property.doc reported).enumValue = .str "")
    ∧ (∀ reported vs, property.doc.dataType = .STRUCT →
        reported.structValues = some vs →
        (enrichReport property.doc reported).structValue
            = some (fromPairs (vs.map fun p => (p.name, xformValue p)))
          ∧ (enrichReport property.doc reported).structValues = none)
    ∧ (∀ p : PropVal, p.dataType = .STRUCT →
        xformValue p = .obj (xformStruct p.structValues))
    ∧ (∀ reported, property.doc.dataType ≠ .STRUCT →
        (enrichReport property.doc reported).structValue = some []
          ∧ (enrichReport property.doc reported).structValues = none) := by
  refine ⟨?_, ?_, ?_, ?_, ?_, ?_⟩
  · unfold addPropertyPage
    rw [hlive]
  · intro reported n s hdt hnum hget
    simp [enrichReport, hdt, enumLookup, hnum, hget]
  · intro reported hdt
    simp [enrichReport, hdt]
    split <;> rfl
  · intro reported vs hdt hsv
    simp [enrichReport, hdt, hsv, xformStruct, xformPairs_eq_map]
  · intro p hdt
    cases p with
    | mk n dt by_ bo nu st en la lo svs =>
        simp only [PropVal.dataType] at hdt
        simp [xformValue, xformStruct, hdt, PropVal.structValues]
  · intro reported hdt
    simp [enrichReport, hdt]

/-- A sample ENUM Property row matching `enumPage`. -/
def enumProperty : PropertyDoc :=
  { name := "temp", recordId := "rec-1", dataType := .ENUM
    enumOptions := ["COLD", "HOT"], rest := [] }

/-- The live read-store row carrying `enumProperty`. -/
def enumPropertyRow : Row PropertyDoc := ⟨enumProperty, 1, MAX_SAFE_INTEGER⟩

/-- A sample report carrying ENUM index 1. -/
def enumReport : Report :=
  { reporterIndex := 0, timestamp := 7, enumValue := .num 1
    structValues := some [], structValue := none, rest := [] }

/-- A sample page whose reports are enriched against `enumProperty`. -/
def enumPage : PageDoc :=
  { name := "temp", recordId := "rec-1", pageNum := 1
    reportedValues := [enumReport], rest := [] }

/-- Witness for `addPropertyPage_enrichment` at a concrete ENUM property and
page: index 1 is rewritten to the option string at position 1. -/
theorem addPropertyPage_enrichment_witness :
    addPropertyPage [enumPropertyRow] [] enumPage 2
        = addBlockState pageIx [] ("temp", "rec-1", 1)
            { enumPage with
                reportedValues := enumPage.reportedValues.map (enrichReport enumProperty) } 2
    ∧ (enrichReport enumProperty enumReport).enumValue = .str "HOT" :=
  ⟨(addPropertyPage_enrichment [enumPropertyRow] [] enumPage 2
      enumPropertyRow [] rfl).1,
    (addPropertyPage_enrichment [enumPropertyRow] [] enumPage 2
      enumPropertyRow [] rfl).2.1 enumReport 1 "HOT" rfl rfl rfl⟩

/-- The two-hex type slice `address.slice(6, 8)` read by `getProtoName`
(stored in the source in a local of the same meaning). -/
def typeHex (address : String) : String := (address.drop 6).take 2

/-- Embedding of `getProtoName` (ledger-sync delta handler, `getProtoName`):
decode the entity type name from an address.  The `ea` tag is checked first
and disambiguated by the last four characters; an unknown tag raises a
blockchain error (the thrown `Error` becomes the `error` case). -/
def getProtoName (address : String) : Except String String :=
  if typeHex address = "ea" then
    if address.takeRight 4 = "0000" then .ok "Property" else .ok "PropertyPage"
  else if typeHex address = "ae" then .ok "Agent"
  else if typeHex address = "aa" then .ok "Proposal"
  else if typeHex address = "ec" then .ok "Record"
  else if typeHex address = "ee" then .ok "RecordType"
  else .error ("Blockchain Error: No Protobuf for prefix \"" ++ typeHex address ++ "\"")

/-- A Record address: namespace, tag `ec`, zero body. -/
def recordAddress : String :=
  "3400deec00000000000000000000000000000000000000000000000000000000000000"

/-- A RecordType address: namespace, tag `ee`, zero body. -/
def recordTypeAddress : String :=
  "3400deee00000000000000000000000000000000000000000000000000000000000000"

/-- C2 (counterexample).  The decoder maps the type tag `ec` to `Record` and
`ee` to `RecordType`, not the other way around: the concrete `ec` address
decodes to `Record` and the concrete `ee` address to `RecordType`. -/
theorem getProtoName_ec_is_record :
    typeHex recordAddress = "ec"
    ∧ getProtoName recordAddress = .ok "Record"
    ∧ getProtoName recordAddress ≠ .ok "RecordType"
    ∧ typeHex recordTypeAddress = "ee"
    ∧ getProtoName recordTypeAddress = .ok "RecordType"
    ∧ getProtoName recordTypeAddress ≠ .ok "Record" := by
  refine ⟨rfl, rfl, ?_, rfl, rfl, ?_⟩ <;> intro h <;>
    exact absurd (Except.ok.inj h) (by decide)

/-- C2 (amended).  For every 70-hex address under the namespace, the decoder
sends tag `ae` to `Agent`, `aa` to `Proposal`, `ec` to `Record`, `ee` to
`RecordType`, and `ea` to `Property` when the last four characters are
`0000` and to `PropertyPage` otherwise. -/
theorem getProtoName_decodes (address : String)
    (h70 : address.length = 70) (hns : address.take 6 = "3400de") :
    (typeHex address = "ae" → getProtoName address = .ok "Agent")
    ∧ (typeHex address = "aa" → getProtoName address = .ok "Proposal")
    ∧ (typeHex address = "ec" → getProtoName address = .ok "Record")
    ∧ (typeHex address = "ee" → getProtoName address = .ok "RecordType")
    ∧ (typeHex address = "ea" → address.takeRight 4 = "0000" →
        getProtoName address = .ok "Property")
    ∧ (typeHex address = "ea" → address.takeRight 4 ≠ "0000" →
        getProtoName address = .ok "PropertyPage") := by
  refine ⟨fun h => ?_, fun h => ?_, fun h => ?_, fun h => ?_,
    fun h h4 => ?_, fun h h4 => ?_⟩ <;> simp [getProtoName, h]
  · exact h4
  · exact h4

/-- Witness for `getProtoName_decodes` at the concrete `ec` address. -/
theorem getProtoName_decodes_witness :
    getProtoName recordAddress = .ok "Record" :=
  (getProtoName_decodes recordAddress rfl rfl).2.2.1 rfl

/-- The numeric value of one hex digit, `none` for a non-digit. -/
def hexDigit? (c : Char) : Option Nat :=
  if '0' ≤ c ∧ c ≤ '9' then some (c.toNat - '0'.toNat)
  else if 'a' ≤ c ∧ c ≤ 'f' then some (c.toNat - 'a'.toNat + 10)
  else if 'A' ≤ c ∧ c ≤ 'F' then some (c.toNat - 'A'.toNat + 10)
  else none

/-- Accumulate hex digits until the first non-digit, as `parseInt` does. -/
def parseHexDigits : List Char → Nat → Nat
  | [], acc => acc
  | c :: cs, acc =>
      match hexDigit? c with
      | some d => parseHexDigits cs (16 * acc + d)
      | none => acc

/-- JavaScript `parseInt(s, 16)`: parse the longest hex-digit prefix of the
string; `none` models `NaN` (no leading digit).  Leading whitespace and signs
never occur in addresses and are omitted. -/
def parseInt16 (s : String) : Option Nat :=
  match s.toList with
  | [] => none
  | c :: cs => if (hexDigit? c).isSome then some (parseHexDigits (c :: cs) 0) else none

/-- The base-16 integer value of a string of hex digits, as the spec reads
the last four address characters. -/
def hexValue (s : String) : Nat :=
  s.toList.foldl (fun acc c => 16 * acc + (hexDigit? c).getD 0) 0

/-- On an all-hex-digit suffix the accumulating parser is the plain base-16
fold. -/
theorem parseHexDigits_eq_foldl (l : List Char) (acc : Nat)
    (h : ∀ c ∈ l, (hexDigit? c).isSome) :
    parseHexDigits l acc
      = l.foldl (fun a c => 16 * a + (hexDigit? c).getD 0) acc := by
  induction l generalizing acc with
  | nil => rfl
  | cons c cs ih =>
      obtain ⟨d, hd⟩ := Option.isSome_iff_exists.mp (h c (List.mem_cons_self c cs))
      rw [List.foldl_cons]
      simp only [parseHexDigits, hd, Option.getD_some]
      exact ih (16 * acc + d) fun x hx => h x (List.mem_cons_of_mem _ hx)

/-- On a nonempty all-hex-digit string, `parseInt(s, 16)` returns exactly the
base-16 value of the whole string. -/
theorem parseInt16_of_hex (s : String) (hne : s.toList ≠ [])
    (h : ∀ c ∈ s.toList, (hexDigit? c).isSome) :
    parseInt16 s = some (hexValue s) := by
  unfold parseInt16 hexValue
  match hl : s.toList with
  | [] => exact absurd hl hne
  | c :: cs =>
      rw [hl] at h
      simp only [h c (List.mem_cons_self c cs), if_pos]
      rw [parseHexDigits_eq_foldl (c :: cs) 0 h]

/-- The object built by `getObjectifier`: the decoded protobuf object (its
fields abstracted as `base`) plus the optional address-derived `pageNum`.
The outer `Option` is the field's presence, the inner one is
number-versus-`NaN`. -/
structure StateObj (δ : Type) where
  base : δ
  pageNum : Option (Option Nat)

/-- Embedding of `getObjectifier` (ledger-sync delta handler): decode the
state instance with `toObject` (abstracted as `toObj`) and, for
`PropertyPage` addresses only, attach `pageNum = parseInt(address.slice(-4),
16)`. -/
def getObjectifier {σ δ : Type} (toObj : σ → δ) (address : String)
    (stateInstance : σ) : Except String (StateObj δ) :=
  match getProtoName address with
  | .error e => .error e
  | .ok name =>
      .ok { base := toObj stateInstance
            pageNum :=
              if name = "PropertyPage" then some (parseInt16 (address.takeRight 4))
              else none }

/-- C10.  An object projected from an address that decodes as `PropertyPage`
carries `pageNum` equal to the base-16 value of the address's last four hex
characters, while objects of every other entity type carry no such field. -/
theorem getObjectifier_pageNum {σ δ : Type} (toObj : σ → δ) (address : String)
    (stateInstance : σ) (obj : StateObj δ)
    (hobj : getObjectifier toObj address stateInstance = .ok obj) :
    (getProtoName address = .ok "PropertyPage" →
        obj.pageNum = some (parseInt16 (address.takeRight 4))
      ∧ ((address.takeRight 4).toList ≠ [] →
          (∀ c ∈ (address.takeRight 4).toList, (hexDigit? c).isSome) →
          obj.pageNum = some (some (hexValue (address.takeRight 4)))))
    ∧ (∀ name, getProtoName address = .ok name → name ≠ "PropertyPage" →
        obj.pageNum = none) := by
  constructor
  · intro hpp
    unfold getObjectifier at hobj
    rw [hpp] at hobj
    simp only [if_pos rfl, Except.ok.injEq] at hobj
    constructor
    · rw [← hobj]
      simp
    · intro hne hhex
      rw [← hobj]
      simp [parseInt16_of_hex (address.takeRight 4) hne hhex]
  · intro name hname hne
    unfold getObjectifier at hobj
    rw [hname] at hobj
    simp only [if_neg hne, Except.ok.injEq] at hobj
    rw [← hobj]

/-- A PropertyPage address whose last four characters are `0012`. -/
def pagedAddress : String :=
  "3400deea00000000000000000000000000000000000000000000000000000000000012"

/-- Witness for `getObjectifier_pageNum` at the concrete PropertyPage
address: the attached page number is 0x0012 = 18. -/
theorem getObjectifier_pageNum_witness :
    (StateObj.mk () (some (some 18)) : StateObj Unit).pageNum
      = some (some (hexValue (pagedAddress.takeRight 4))) :=
  ((getObjectifier_pageNum (fun _ => ()) pagedAddress () (StateObj.mk () (some (some 18)))
      rfl).1 rfl).2 (by decide) (by decide)

/-- A block descriptor extracted from a block-commit event. -/
structure BlockDesc where
  blockNum : Nat
  blockId : String
  stateRootHash : String
deriving DecidableEq, Repr

/-- A namespaced state change delivered in a state-delta event; `value` holds
the raw container bytes, which the trace model carries opaquely. -/
structure StateChange where
  address : String
  value : String
deriving DecidableEq, Repr

/-- The partition predicate of `handle`:
`getProtoName(change.address) === 'PropertyPage'`.  An address whose decode
throws would abort the block job; such addresses do not occur among
namespaced deltas, and the embedding classifies them as non-page. -/
def isPropertyPageChange (c : StateChange) : Bool :=
  match getProtoName c.address with
  | .ok name => name == "PropertyPage"
  | .error _ => false

/-- One operation of a block job, in the order the job performs them.
`applyChange` covers the block-versioned upserts of all entries decoded from
one state change. -/
inductive DeltaEvent where
  | applyChange (change : StateChange) (blockNum : Nat)
  | wait (ms : Nat)
  | insertBlock (block : BlockDesc)
deriving DecidableEq, Repr

/-- Embedding of `handle` (ledger-sync delta handler, lines 103-118): the
serialized per-block job as its operation trace.  `_.partition` splits the
changes into PropertyPage changes and the rest; the job applies the rest,
waits 0 or 100 ms depending on whether page changes exist, applies the page
changes, and finally inserts the block descriptor.  Each database write is
serialized at the point the job issues it. -/
def handle (block : BlockDesc) (changes : List StateChange) : List DeltaEvent :=
  let pageChanges := changes.filter isPropertyPageChange
  let otherChanges := changes.filter fun c => !(isPropertyPageChange c)
  otherChanges.map (fun c => .applyChange c block.blockNum)
    ++ [.wait (if pageChanges.length = 0 then 0 else 100)]
    ++ pageChanges.map (fun c => .applyChange c block.blockNum)
    ++ [.insertBlock block]

/-- Any `applyChange` event of a block job sits before the wait if its change
is not a PropertyPage change, and after the wait if it is. -/
theorem handle_apply_position (block : BlockDesc) (changes : List StateChange)
    (i : Nat) (c : StateChange) (bn : Nat)
    (happ : (handle block changes)[i]? = some (.applyChange c bn)) :
    (isPropertyPageChange c = false →
      i < (changes.filter fun x => !(isPropertyPageChange x)).length)
    ∧ (isPropertyPageChange c = true →
      (changes.filter fun x => !(isPropertyPageChange x)).length < i) := by
  simp only [handle] at happ
  rw [List.append_assoc, List.append_assoc, List.singleton_append] at happ
  rcases Nat.lt_or_ge i ((changes.filter fun x =>
      !(isPropertyPageChange x)).map
        (fun x => DeltaEvent.applyChange x block.blockNum)).length with hi | hi
  · rw [List.getElem?_append_left hi] at happ
    rw [List.getElem?_map] at happ
    obtain ⟨x, hx, hfx⟩ := Option.map_eq_some'.mp happ
    obtain ⟨hxc, -⟩ := DeltaEvent.applyChange.inj hfx
    subst hxc
    have hmem : x ∈ changes.filter fun y => !(isPropertyPageChange y) :=
      List.getElem?_mem hx
    have hnp : isPropertyPageChange x = false := by
      simpa using (List.mem_filter.mp hmem).2
    rw [List.length_map] at hi
    exact ⟨fun _ => hi, fun ht => absurd (hnp ▸ ht) (by simp)⟩
  · rw [List.getElem?_append_right hi] at happ
    rw [List.length_map] at hi happ
    cases hkk : i - (changes.filter fun x => !(isPropertyPageChange x)).length with
    | zero =>
        rw [hkk] at happ
        simp at happ
    | succ m =>
        rw [hkk, List.getElem?_cons_succ] at happ
        rcases Nat.lt_or_ge m ((changes.filter isPropertyPageChange).map
            (fun x => DeltaEvent.applyChange x block.blockNum)).length with hm | hm
        · rw [List.getElem?_append_left hm, List.getElem?_map] at happ
          obtain ⟨x, hx, hfx⟩ := Option.map_eq_some'.mp happ
          obtain ⟨hxc, -⟩ := DeltaEvent.applyChange.inj hfx
          subst hxc
          have hmem : x ∈ changes.filter isPropertyPageChange :=
            List.getElem?_mem hx
          have hp : isPropertyPageChange x = true := (List.mem_filter.mp hmem).2
          refine ⟨fun hf => absurd (hp ▸ hf) (by simp), fun _ => ?_⟩
          omega
        · rw [List.getElem?_append_right hm] at happ
          rw [List.length_map] at hm happ
          rcases Nat.lt_or_ge (m - (changes.filter isPropertyPageChange).length) 1
            with h1 | h1
          · have hz : m - (changes.filter isPropertyPageChange).length = 0 := by omega
            rw [hz] at happ
            simp at happ
          · rw [List.getElem?_eq_none (by simpa using h1)] at happ
            exact absurd happ (by simp)

/-- The unique wait event of a block job carries 0 ms exactly when the block
has no PropertyPage change and 100 ms otherwise. -/
theorem handle_wait_mem (block : BlockDesc) (changes : List StateChange)
    (ms : Nat) :
    DeltaEvent.wait ms ∈ handle block changes ↔
      ms = (if (changes.filter isPropertyPageChange).length = 0 then 0 else 100) := by
  simp only [handle]
  constructor
  · intro h
    rcases List.mem_append.mp h with h1 | h2
    · rcases List.mem_append.mp h1 with h3 | h4
      · rcases List.mem_append.mp h3 with h5 | h6
        · obtain ⟨x, -, hx⟩ := List.mem_map.mp h5
          exact absurd hx (by simp)
        · exact DeltaEvent.wait.inj (List.mem_singleton.mp h6)
      · obtain ⟨x, -, hx⟩ := List.mem_map.mp h4
        exact absurd hx (by simp)
    · exact absurd (List.mem_singleton.mp h2) (by simp)
  · intro h
    subst h
    exact List.mem_append_left _ (List.mem_append_left _
      (List.mem_append_right _ (List.mem_singleton_self _)))

/-- C6.  In every block job produced by `handle`: every non-PropertyPage
change is applied before any PropertyPage change; the settle wait is exactly
100 ms iff the block contains at least one PropertyPage change (0 ms
otherwise); and the block descriptor is inserted last, after both phases. -/
theorem handle_block_job (block : BlockDesc) (changes : List StateChange) :
    (∀ (i j : Nat) (cp co : StateChange) (bni bnj : Nat),
        (handle block changes)[i]? = some (DeltaEvent.applyChange cp bni) →
        isPropertyPageChange cp = true →
        (handle block changes)[j]? = some (DeltaEvent.applyChange co bnj) →
        isPropertyPageChange co = false → j < i)
    ∧ (DeltaEvent.wait 100 ∈ handle block changes ↔
        ∃ c ∈ changes, isPropertyPageChange c = true)
    ∧ (DeltaEvent.wait 0 ∈ handle block changes ↔
        ∀ c ∈ changes, isPropertyPageChange c = false)
    ∧ (handle block changes).getLast? = some (.insertBlock block) := by
  refine ⟨?_, ?_, ?_, ?_⟩
  · intro i j cp co bni bnj hgi hpi hgj hpj
    have h1 := (handle_apply_position block changes i cp bni hgi).2 hpi
    have h2 := (handle_apply_position block changes j co bnj hgj).1 hpj
    omega
  · rw [handle_wait_mem]
    by_cases hp : (changes.filter isPropertyPageChange).length = 0
    · rw [if_pos hp]
      have hnone : ∀ c ∈ changes, ¬ isPropertyPageChange c = true := by
        rw [← List.filter_eq_nil_iff]
        exact List.length_eq_zero.mp hp
      constructor
      · intro h
        exact absurd h (by decide)
      · rintro ⟨c, hc, hpc⟩
        exact absurd hpc (hnone c hc)
    · rw [if_neg hp]
      constructor
      · intro _
        obtain ⟨c, hc⟩ := List.exists_mem_of_ne_nil
          (changes.filter isPropertyPageChange)
          (fun hnil => hp (by rw [hnil]; rfl))
        obtain ⟨hcm, hcp⟩ := List.mem_filter.mp hc
        exact ⟨c, hcm, hcp⟩
      · intro _
        rfl
  · rw [handle_wait_mem]
    by_cases hp : (changes.filter isPropertyPageChange).length = 0
    · rw [if_pos hp]
      have hnone : ∀ c ∈ changes, ¬ isPropertyPageChange c = true := by
        rw [← List.filter_eq_nil_iff]
        exact List.length_eq_zero.mp hp
      constructor
      · intro _ c hc
        exact Bool.eq_false_iff.mpr (hnone c hc)
      · intro _
        rfl
    · rw [if_neg hp]
      constructor
      · intro h
        exact absurd h (by decide)
      · intro hall
        exfalso
        apply hp
        rw [List.length_eq_zero, List.filter_eq_nil_iff]
        intro c hc
        simp [hall c hc]
  · simp only [handle]
    rw [List.getLast?_concat]

/-- A sample block descriptor for the delta-pipeline witness. -/
def sampleBlock : BlockDesc := { blockNum := 4, blockId := "B4", stateRootHash := "R4" }

/-- A non-PropertyPage state change (a Record address). -/
def otherChange : StateChange :=
  { address := "3400deec00000000000000000000000000000000000000000000000000000000000abc"
    value := "" }

/-- A PropertyPage state change (tag `ea`, nonzero page tail). -/
def pageChange : StateChange :=
  { address := "3400deea00000000000000000000000000000000000000000000000000000000000012"
    value := "" }

/-- Witness for `handle_block_job` at a concrete block with one ordinary and
one PropertyPage change. -/
theorem handle_block_job_witness :
    (0 : Nat) < 2
    ∧ DeltaEvent.wait 100 ∈ handle sampleBlock [otherChange, pageChange] :=
  ⟨(handle_block_job sampleBlock [otherChange, pageChange]).1 2 0
      pageChange otherChange 4 4 rfl rfl rfl rfl,
    (handle_block_job sampleBlock [otherChange, pageChange]).2.1.mpr
      ⟨pageChange, by simp, rfl⟩⟩

/-- A decoded transaction header (the platform's `TransactionHeader`,
modelled at the level of its decoded fields). -/
structure TransactionHeader where
  signerPublicKey : String
  batcherPublicKey : String
  familyName : String
  familyVersion : String
  inputs : List String
  outputs : List String
  nonce : String
  payloadSha512 : String
deriving DecidableEq, Repr

/-- A transaction: its decoded header, the end-user signature over the header
bytes, and the payload bytes. -/
structure Transaction where
  header : TransactionHeader
  headerSignature : String
  payload : String
deriving DecidableEq, Repr

/-- A decoded batch header. -/
structure BatchHeader where
  signerPublicKey : String
  transactionIds : List String
deriving DecidableEq, Repr

/-- A batch wrapping validated transactions. -/
structure Batch where
  header : BatchHeader
  headerSignature : String
  transactions : List Transaction
deriving DecidableEq, Repr

/-- The server API error taxonomy, as far as the batcher uses it. -/
inductive ApiError where
  | badRequest (message : String)
deriving DecidableEq, Repr

/-- Embedding of `validateTxns` (server batcher): walk the decoded headers in
order and throw `BadRequest` at the first whose `batcherPublicKey` is not the
server's. -/
def validateTxns (publicKeyHex : String) : List Transaction → Except ApiError Unit
  | [] => .ok ()
  | txn :: rest =>
      if txn.header.batcherPublicKey = publicKeyHex then
        validateTxns publicKeyHex rest
      else
        .error (.badRequest ("Transactions must use batcherPublicKey: " ++ publicKeyHex))

/-- Embedding of `batchTxns` (server batcher): build the batch header from
the server public key and the transaction signatures, and sign it.  `sign`
abstracts `context.sign(header, privateKey)`, signing with the server's
private key. -/
def batchTxns (sign : BatchHeader → String) (publicKeyHex : String)
    (txns : List Transaction) : Batch :=
  let header : BatchHeader :=
    { signerPublicKey := publicKeyHex
      transactionIds := txns.map fun txn => txn.headerSignature }
  { header := header, headerSignature := sign header, transactions := txns }

/-- Embedding of `batch` (server batcher): validate the decoded transaction
list, then wrap it; a validation throw aborts before any batch is built. -/
def batch (sign : BatchHeader → String) (publicKeyHex : String)
    (txns : List Transaction) : Except ApiError Batch :=
  match validateTxns publicKeyHex txns with
  | .error e => .error e
  | .ok () => .ok (batchTxns sign publicKeyHex txns)

/-- A mismatching transaction anywhere in the list makes `validateTxns`
throw `BadRequest`. -/
theorem validateTxns_error (publicKeyHex : String) (txns : List Transaction)
    (h : ∃ txn ∈ txns, txn.header.batcherPublicKey ≠ publicKeyHex) :
    validateTxns publicKeyHex txns
      = .error (.badRequest ("Transactions must use batcherPublicKey: " ++ publicKeyHex)) := by
  induction txns with
  | nil => simp at h
  | cons t rest ih =>
      obtain ⟨txn, hmem, hne⟩ := h
      by_cases ht : t.header.batcherPublicKey = publicKeyHex
      · rcases List.mem_cons.mp hmem with rfl | hmem'
        · exact absurd ht hne
        · simp only [validateTxns, if_pos ht]
          exact ih ⟨txn, hmem', hne⟩
      · simp only [validateTxns, if_neg ht]

/-- When every transaction matches, `validateTxns` succeeds. -/
theorem validateTxns_ok (publicKeyHex : String) (txns : List Transaction)
    (h : ∀ txn ∈ txns, txn.header.batcherPublicKey = publicKeyHex) :
    validateTxns publicKeyHex txns = .ok () := by
  induction txns with
  | nil => rfl
  | cons t rest ih =>
      simp only [validateTxns, if_pos (h t (List.mem_cons_self t rest))]
      exact ih fun txn hmem => h txn (List.mem_cons_of_mem t hmem)

/-- C7.  If any decoded transaction header carries a `batcherPublicKey`
different from the server's, `batch` throws `BadRequest` and produces no
batch; if all carry the server's key, `batch` returns a batch whose header
is signed with the server's private key, whose transactions are exactly the
input transactions, and whose header's `transactionIds` are the inputs'
`headerSignature`s. -/
theorem batch_spec (sign : BatchHeader → String) (publicKeyHex : String)
    (txns : List Transaction) :
    ((∃ txn ∈ txns, txn.header.batcherPublicKey ≠ publicKeyHex) →
        batch sign publicKeyHex txns
          = .error (.badRequest
              ("Transactions must use batcherPublicKey: " ++ publicKeyHex)))
    ∧ ((∀ txn ∈ txns, txn.header.batcherPublicKey = publicKeyHex) →
        ∃ b : Batch, batch sign publicKeyHex txns = .ok b
          ∧ b.transactions = txns
          ∧ b.header.transactionIds = txns.map (fun txn => txn.headerSignature)
          ∧ b.header.signerPublicKey = publicKeyHex
          ∧ b.headerSignature = sign b.header) := by
  constructor
  · intro h
    unfold batch
    rw [validateTxns_error publicKeyHex txns h]
  · intro h
    refine ⟨batchTxns sign publicKeyHex txns, ?_, rfl, rfl, rfl, rfl⟩
    unfold batch
    rw [validateTxns_ok publicKeyHex txns h]

/-- A transaction addressed to the right batcher key. -/
def goodTxn : Transaction :=
  { header :=
      { signerPublicKey := "02aa", batcherPublicKey := "03bb"
        familyName := "supply_chain", familyVersion := "1.1"
        inputs := ["3400de"], outputs := ["3400de"]
        nonce := "n1", payloadSha512 := "deadbeef" }
    headerSignature := "sig1", payload := "p1" }

/-- Witness for `batch_spec`: the single matching transaction is wrapped into
a batch carrying exactly it. -/
theorem batch_spec_witness :
    ∃ b : Batch,
      batch (fun h => "signed:" ++ h.signerPublicKey) "03bb" [goodTxn] = .ok b
      ∧ b.transactions = [goodTxn]
      ∧ b.header.transactionIds = [goodTxn].map (fun txn => txn.headerSignature)
      ∧ b.header.signerPublicKey = "03bb"
      ∧ b.headerSignature = (fun h : BatchHeader => "signed:" ++ h.signerPublicKey) b.header :=
  (batch_spec (fun h => "signed:" ++ h.signerPublicKey) "03bb" [goodTxn]).2
    (by decide)

namespace SubmitUtils

/-- Embedding of `encodeHeader` in the server's submit utilities
(`FAMILY_NAME = 'supply_chain'`, `FAMILY_VERSION = '1.1'`,
`NAMESPACE = '3400de'`).  `sha512hex` abstracts
`createHash('sha512').update(payload).digest('hex')` and `nonce` the
`Math.random()`-derived base-36 nonce. -/
def encodeHeader (sha512hex : String → String) (nonce : String)
    (signerPublicKey batcherPublicKey payload : String) : TransactionHeader :=
  { signerPublicKey := signerPublicKey
    batcherPublicKey := batcherPublicKey
    familyName := "supply_chain"
    familyVersion := "1.1"
    inputs := ["3400de"]
    outputs := ["3400de"]
    nonce := nonce
    payloadSha512 := sha512hex payload }

end SubmitUtils

namespace SeedScript

/-- Embedding of `encodeHeader` in the seeding scripts, which declare
`FAMILY_VERSION = '1.0'` with the same family name and namespace. -/
def encodeHeader (sha512hex : String → String) (nonce : String)
    (signerPublicKey batcherPublicKey payload : String) : TransactionHeader :=
  { signerPublicKey := signerPublicKey
    batcherPublicKey := batcherPublicKey
    familyName := "supply_chain"
    familyVersion := "1.0"
    inputs := ["3400de"]
    outputs := ["3400de"]
    nonce := nonce
    payloadSha512 := sha512hex payload }

end SeedScript

namespace AssetClient

/-- Embedding of the header built inside `createTxn` of the asset client's
transaction service (`FAMILY_VERSION = '1.1'`). -/
def createTxnHeader (sha512hex : String → String) (nonce : String)
    (signerPublicKey batcherPublicKey payload : String) : TransactionHeader :=
  { signerPublicKey := signerPublicKey
    batcherPublicKey := batcherPublicKey
    familyName := "supply_chain"
    familyVersion := "1.1"
    inputs := ["3400de"]
    outputs := ["3400de"]
    nonce := nonce
    payloadSha512 := sha512hex payload }

end AssetClient

/-- C9 (counterexample).  Not every submission-side header carries
`familyVersion = "1.1"`: the seed scripts encode `"1.0"`. -/
theorem seed_header_version_is_1_0 :
    (SeedScript.encodeHeader (fun _ => "") "n0" "02aa" "03bb" "p0").familyVersion = "1.0"
    ∧ (SeedScript.encodeHeader (fun _ => "") "n0" "02aa" "03bb" "p0").familyVersion
        ≠ "1.1" := by
  constructor
  · rfl
  · decide

/-- C9 (amended).  Every transaction header encoded by the repository's
submission code identifies `familyName = "supply_chain"`, sets inputs and
outputs to the single namespace prefix `["3400de"]`, and sets
`payloadSha512` to the hex SHA-512 of the payload; the server submit
utilities and the asset client encode `familyVersion = "1.1"`, while the
seed scripts encode `familyVersion = "1.0"`. -/
theorem encodeHeader_fields (sha512hex : String → String) (nonce : String)
    (signerPublicKey batcherPublicKey payload : String) :
    (SubmitUtils.encodeHeader sha512hex nonce signerPublicKey batcherPublicKey
        payload).familyName = "supply_chain"
    ∧ (SubmitUtils.encodeHeader sha512hex nonce signerPublicKey batcherPublicKey
        payload).familyVersion = "1.1"
    ∧ (SubmitUtils.encodeHeader sha512hex nonce signerPublicKey batcherPublicKey
        payload).inputs = ["3400de"]
    ∧ (SubmitUtils.encodeHeader sha512hex nonce signerPublicKey batcherPublicKey
        payload).outputs = ["3400de"]
    ∧ (SubmitUtils.encodeHeader sha512hex nonce signerPublicKey batcherPublicKey
        payload).payloadSha512 = sha512hex payload
    ∧ (SeedScript.encodeHeader sha512hex nonce signerPublicKey batcherPublicKey
        payload).familyName = "supply_chain"
    ∧ (SeedScript.encodeHeader sha512hex nonce signerPublicKey batcherPublicKey
        payload).familyVersion = "1.0"
    ∧ (SeedScript.encodeHeader sha512hex nonce signerPublicKey batcherPublicKey
        payload).inputs = ["3400de"]
    ∧ (SeedScript.encodeHeader sha512hex nonce signerPublicKey batcherPublicKey
        payload).outputs = ["3400de"]
    ∧ (SeedScript.encodeHeader sha512hex nonce signerPublicKey batcherPublicKey
        payload).payloadSha512 = sha512hex payload
    ∧ (AssetClient.createTxnHeader sha512hex nonce signerPublicKey batcherPublicKey
        payload).familyName = "supply_chain"
    ∧ (AssetClient.createTxnHeader sha512hex nonce signerPublicKey batcherPublicKey
        payload).familyVersion = "1.1"
    ∧ (AssetClient.createTxnHeader sha512hex nonce signerPublicKey batcherPublicKey
        payload).inputs = ["3400de"]
    ∧ (AssetClient.createTxnHeader sha512hex nonce signerPublicKey batcherPublicKey
        payload).outputs = ["3400de"]
    ∧ (AssetClient.createTxnHeader sha512hex nonce signerPublicKey batcherPublicKey
        payload).payloadSha512 = sha512hex payload :=
  ⟨rfl, rfl, rfl, rfl, rfl, rfl, rfl, rfl, rfl, rfl, rfl, rfl, rfl, rfl, rfl⟩

/-- Embedding of `fromBlock` (server db queries): the ReQL predicate keeping a
resource iff `startBlockNum ≤ blockNum` and `endBlockNum > blockNum`. -/
def fromBlock {δ : Type} (blockNum : Nat) (resource : Row δ) : Bool :=
  decide (resource.startBlockNum ≤ blockNum) &&
    decide (blockNum < resource.endBlockNum)

/-- One insertion step of the descending sort behind `orderBy(r.desc(...))`. -/
def insertDescBlock (b : BlockDesc) : List BlockDesc → List BlockDesc
  | [] => [b]
  | x :: xs => if x.blockNum ≤ b.blockNum then b :: x :: xs else x :: insertDescBlock b xs

/-- The `blocks` table ordered by descending `blockNum`, as
`r.table('blocks').orderBy(r.desc('blockNum'))` produces it. -/
def orderByBlockNumDesc (blocks : List BlockDesc) : List BlockDesc :=
  blocks.foldr insertDescBlock []

/-- `nth(0)('blockNum')` of the descending ordering: the current block
number; `none` models the ReQL error on an empty table. -/
def currentBlockNum (blocks : List BlockDesc) : Option Nat :=
  (orderByBlockNumDesc blocks).head?.map BlockDesc.blockNum

/-- Embedding of `queryWithCurrentBlock` (server db core): run the query
against the current block number. -/
def queryWithCurrentBlock {α : Type} (query : Nat → α) (blocks : List BlockDesc) :
    Option α :=
  (currentBlockNum blocks).map query

theorem insertDescBlock_ne_nil (b : BlockDesc) (l : List BlockDesc) :
    insertDescBlock b l ≠ [] := by
  cases l with
  | nil => simp [insertDescBlock]
  | cons x xs =>
      simp only [insertDescBlock]
      split <;> simp

/-- The head of the descending ordering is a maximal element of the table. -/
theorem orderBy_head_max (blocks : List BlockDesc) (h : BlockDesc)
    (t : List BlockDesc) (heq : orderByBlockNumDesc blocks = h :: t) :
    h ∈ blocks ∧ ∀ x ∈ blocks, x.blockNum ≤ h.blockNum := by
  induction blocks generalizing h t with
  | nil => cases heq
  | cons b bs ih =>
      rw [show orderByBlockNumDesc (b :: bs)
          = insertDescBlock b (orderByBlockNumDesc bs) from rfl] at heq
      cases hbs : orderByBlockNumDesc bs with
      | nil =>
          rw [hbs] at heq
          simp only [insertDescBlock] at heq
          obtain ⟨rfl, rfl⟩ := List.cons.inj heq
          have hbsnil : bs = [] := by
            cases bs with
            | nil => rfl
            | cons y ys =>
                exact absurd hbs (by
                  rw [show orderByBlockNumDesc (y :: ys)
                      = insertDescBlock y (orderByBlockNumDesc ys) from rfl]
                  exact insertDescBlock_ne_nil y _)
          subst hbsnil
          exact ⟨List.mem_singleton_self _, by
            intro x hx
            rw [List.mem_singleton.mp hx]⟩
      | cons hd tl =>
          rw [hbs] at heq
          obtain ⟨hmem', hmax'⟩ := ih hd tl hbs
          simp only [insertDescBlock] at heq
          by_cases hcmp : hd.blockNum ≤ b.blockNum
          · rw [if_pos hcmp] at heq
            obtain rfl : b = h := (List.cons.inj heq).1
            refine ⟨List.mem_cons_self _ _, ?_⟩
            intro x hx
            rcases List.mem_cons.mp hx with rfl | hx'
            · exact le_refl _
            · exact le_trans (hmax' x hx') hcmp
          · rw [if_neg hcmp] at heq
            obtain rfl : hd = h := (List.cons.inj heq).1
            refine ⟨List.mem_cons_of_mem _ hmem', ?_⟩
            intro x hx
            rcases List.mem_cons.mp hx with rfl | hx'
            · exact le_of_not_le hcmp
            · exact hmax' x hx'

/-- C8.  A row is kept by the as-of filter exactly when
`startBlockNum ≤ b < endBlockNum`, and the current block used by
`queryWithCurrentBlock` is the row of the `blocks` table with the maximal
`blockNum` (and the query runs against that number). -/
theorem asOf_filter_and_currentBlock {δ α : Type} (table : List (Row δ))
    (b : Nat) (r : Row δ) (blocks : List BlockDesc) (q : Nat → α)
    (hne : blocks ≠ []) :
    (r ∈ table.filter (fromBlock b) ↔
        r ∈ table ∧ r.startBlockNum ≤ b ∧ b < r.endBlockNum)
    ∧ ∃ n : Nat, currentBlockNum blocks = some n
        ∧ n ∈ blocks.map BlockDesc.blockNum
        ∧ (∀ blk ∈ blocks, blk.blockNum ≤ n)
        ∧ queryWithCurrentBlock q blocks = some (q n) := by
  constructor
  · simp [List.mem_filter, fromBlock, and_assoc]
  · cases horder : orderByBlockNumDesc blocks with
    | nil =>
        exfalso
        cases blocks with
        | nil => exact hne rfl
        | cons y ys =>
            exact absurd horder (by
              rw [show orderByBlockNumDesc (y :: ys)
                  = insertDescBlock y (orderByBlockNumDesc ys) from rfl]
              exact insertDescBlock_ne_nil y _)
    | cons hd tl =>
        obtain ⟨hmem, hmax⟩ := orderBy_head_max blocks hd tl horder
        refine ⟨hd.blockNum, ?_, ?_, hmax, ?_⟩
        · simp [currentBlockNum, horder]
        · exact List.mem_map_of_mem _ hmem
        · simp [queryWithCurrentBlock, currentBlockNum, horder]

/-- A concrete three-row `blocks` table, out of order. -/
def blocksTable : List BlockDesc :=
  [⟨1, "b1", "r1"⟩, ⟨3, "b3", "r3"⟩, ⟨2, "b2", "r2"⟩]

/-- Witness for `asOf_filter_and_currentBlock` at the concrete `blocks`
table: the current block is 3 and the query runs against it. -/
theorem asOf_filter_and_currentBlock_witness :
    ∃ n : Nat, currentBlockNum blocksTable = some n
      ∧ n ∈ blocksTable.map BlockDesc.blockNum
      ∧ (∀ blk ∈ blocksTable, blk.blockNum ≤ n)
      ∧ queryWithCurrentBlock (fun m => m + 1) blocksTable = some ((fun m => m + 1) n) :=
  (asOf_filter_and_currentBlock [Row.mk 0 1 3] 2 (Row.mk 0 1 3) blocksTable
    (fun m => m + 1) (by decide)).2

end SupplyChain
